import Mathlib

/-!
Verification development for the cltv_flo repository (src/cltv.py).

The pipeline is embedded shallowly:
* a pandas DataFrame is a list of named, dtype-tagged columns of rational
  values (dates are encoded as day numbers; the real CSV carries
  day-granular dates, and float arithmetic is idealised as exact rational
  arithmetic, with no missing values — the real input has none);
* pandas library semantics that the script relies on (Series.quantile with
  linear interpolation, qcut, float division, Python round) are modelled
  explicitly as Lean functions;
* the two external lifetimes fitters are abstracted as an arbitrary
  LibModel record of functions, since their internals are delegated to a
  third-party library and no claim depends on them;
* in-place mutation of the one table is made explicit by threading the
  post-call state of the argument through return values.
-/

namespace CltvFlo

/-- Rounding of a rational to an integer, half to even, as Python round(x, 0)
behaves on the idealised (exact) value. -/
def rhe (x : ℚ) : ℤ :=
  let f := ⌊x⌋
  let r := x - (f : ℚ)
  if r < 1/2 then f else if 1/2 < r then f + 1 else if Even f then f else f + 1

/-- Ascending sort of the values of a column, as pandas sorts before taking a
quantile. -/
def sortVals (l : List ℚ) : List ℚ :=
  List.insertionSort (fun a b => a ≤ b) l

/-- Modelled pandas Series.quantile with the default linear interpolation:
on the sorted values x_0 .. x_{n-1}, the q-quantile is
x_i + (h - i) * (x_{i+1} - x_i) for h = (n-1)*q and i = floor h.
The quantile of an empty column is junk (pandas yields NaN); no claim
evaluates it on an empty column in a way that matters. -/
def quantile (l : List ℚ) (q : ℚ) : ℚ :=
  let s := sortVals l
  if s.length = 0 then 0 else
    let h : ℚ := ((s.length - 1 : ℕ) : ℚ) * q
    let i : ℕ := ⌊h⌋.toNat
    let xi := s.getD i 0
    let xi1 := s.getD (i + 1) xi
    xi + (h - (i : ℚ)) * (xi1 - xi)

/-- outlier_thresholds of src/cltv.py (lines 45-71), on the values of the
selected column. The source defaults are low_quantile=0.01, up_quantile=0.99;
callers inside the script always use the defaults. -/
def outlier_thresholds (l : List ℚ) (low_quantile up_quantile : ℚ) : ℚ × ℚ :=
  let quantile1 := quantile l low_quantile
  let quantile3 := quantile l up_quantile
  let interquantile_range := quantile3 - quantile1
  let up_limit := quantile3 + 1.5 * interquantile_range
  let low_limit := quantile1 - 1.5 * interquantile_range
  (low_limit, up_limit)

/-- replace_with_thresholds of src/cltv.py (lines 74-92), on the values of the
selected column: thresholds are computed once, then the two masked
assignments run in sequence, the second mask being evaluated on the values
the first assignment produced (as the two .loc statements do). -/
def replace_with_thresholds_vals (l : List ℚ) : List ℚ :=
  let t := outlier_thresholds l 0.01 0.99
  let l1 := l.map fun v => if v < t.1 then ((rhe t.1 : ℤ) : ℚ) else v
  l1.map fun v => if t.2 < v then ((rhe t.2 : ℤ) : ℚ) else v

/-- Dtype of a pandas column as the script distinguishes them: object
(dtype "O", the dtype of string columns as read from the CSV), numeric
(the float64 order counts and monetary totals), and datetime64 (after
pd.to_datetime). -/
inductive Dtype
  | obj
  | num
  | datetime
deriving DecidableEq, Repr

/-- One DataFrame column: its label, dtype and values. Values of object and
datetime columns are encoded as rationals too (identifiers as codes, dates as
day numbers); only their count of distinct values and their ordering matter
to the script. -/
structure Col where
  name : String
  dtype : Dtype
  values : List ℚ
deriving DecidableEq, Repr

/-- A pandas DataFrame: an ordered list of labelled columns. -/
abbrev Table := List Col

/-- Substring test on character lists (helper for nameHasDate). -/
def strHasSub (pat : List Char) : List Char → Bool
  | [] => pat.isEmpty
  | ch :: t => pat.isPrefixOf (ch :: t) || strHasSub pat t

/-- The test dataframe.columns.str.contains("date") of src/cltv.py line 118:
the pattern has no regex metacharacter, so it is a plain substring test. -/
def nameHasDate (s : String) : Bool :=
  strHasSub (String.toList ("date")) s.toList

/-- The values of the column labelled n (first match), [] when the table has
no such column. -/
def colValues (t : Table) (n : String) : List ℚ :=
  ((t.find? fun c => c.name == n).map Col.values).getD []

/-- Whether the table has a column labelled n. -/
def hasCol (t : Table) (n : String) : Bool :=
  t.any fun c => c.name == n

/-- Column assignment df[n] = vs: pandas overwrites the column when the label
exists and appends a new column at the end otherwise. -/
def setCol (t : Table) (n : String) (vs : List ℚ) (d : Dtype) : Table :=
  if hasCol t n then
    t.map fun c => if c.name = n then { c with dtype := d, values := vs } else c
  else t ++ [⟨n, d, vs⟩]

/-- grab_col_names of src/cltv.py (lines 9-42): categorical, categorical but
cardinal, and numeric column labels. nunique is the count of distinct values
(the input has no missing values). The source defaults are cat_th=10,
car_th=20; data_prep calls it with the defaults. -/
def grab_col_names (dataframe : Table) (cat_th car_th : ℕ) :
    List String × List String × List String :=
  let cat_cols := (dataframe.filter fun c => c.dtype == Dtype.obj).map Col.name
  let num_but_cat := (dataframe.filter fun c =>
    decide (c.values.dedup.length < cat_th) && c.dtype != Dtype.obj).map Col.name
  let cat_but_car := (dataframe.filter fun c =>
    decide (car_th < c.values.dedup.length) && c.dtype == Dtype.obj).map Col.name
  let cat_cols2 := (cat_cols ++ num_but_cat).filter fun n => !(cat_but_car.contains n)
  let num_cols := ((dataframe.filter fun c => c.dtype != Dtype.obj).map Col.name).filter
    fun n => !(num_but_cat.contains n)
  (cat_cols2, cat_but_car, num_cols)

/-- replace_with_thresholds acting on the table (the .loc assignments mutate
the named column in place; every other column is untouched). -/
def replace_with_thresholds (dataframe : Table) (column : String) : Table :=
  dataframe.map fun c =>
    if c.name = column then { c with values := replace_with_thresholds_vals c.values } else c

/-- The pd.to_datetime step of data_prep (lines 118-119): every column whose
label contains the substring date gets dtype datetime64; values (day numbers)
are unchanged. -/
def to_datetime_date_cols (t : Table) : Table :=
  t.map fun c => if nameHasDate c.name then { c with dtype := Dtype.datetime } else c

/-- data_prep of src/cltv.py (lines 95-120): caps outliers on every column
grab_col_names classifies as numeric, adds total_order_num and
customer_value_total as sums of the online/offline columns, and coerces
date-named columns to datetime. The input table is mutated in place and also
returned; the model returns the mutated state. -/
def data_prep (dataframe : Table) : Table :=
  let numeric := (grab_col_names dataframe 10 20).2.2
  let t1 := numeric.foldl replace_with_thresholds dataframe
  let t2 := setCol t1 ("total_order_num")
    (List.zipWith (fun a b => a + b)
      (colValues t1 ("order_num_total_ever_online"))
      (colValues t1 ("order_num_total_ever_offline"))) Dtype.num
  let t3 := setCol t2 ("customer_value_total")
    (List.zipWith (fun a b => a + b)
      (colValues t2 ("customer_value_total_ever_offline"))
      (colValues t2 ("customer_value_total_ever_online"))) Dtype.num
  to_datetime_date_cols t3

/-- Modelled pandas float division of two series entries: a finite quotient
when the divisor is nonzero, and a non-finite value (inf or NaN, collapsed to
none) when the divisor is zero. -/
def pdDiv (a b : ℚ) : Option ℚ :=
  if b = 0 then none else some (a / b)

/-- Series.max of pandas; junk 0 on an empty series (pandas yields NaN). -/
def seriesMax (l : List ℚ) : ℚ :=
  match l with
  | [] => 0
  | a :: t => t.foldl max a

/-- The fresh DataFrame cltv built by create_cltv (lines 142-147). -/
structure CltvFrame where
  customer_id : List ℚ
  recency_cltv_weekly : List ℚ
  T_weekly : List ℚ
  frequency : List ℚ
  monetary_cltv_avg : List (Option ℚ)
deriving DecidableEq, Repr

/-- create_cltv of src/cltv.py (lines 123-149). The function body reads the
module-level global df for every cltv column, while last_date (hence
analysis_date) is computed from its own dataframe parameter after data_prep
mutated it. The model takes the value the global df has when the columns are
read as the first argument, and returns the mutated state of the parameter
alongside the fresh frame. Date differences are exact day counts (the CSV
dates are day-granular, so .dt.days truncates nothing). -/
def create_cltv (df : Table) (dataframe : Table) : Table × CltvFrame :=
  let prepped := data_prep dataframe
  let last_date := seriesMax (colValues prepped ("last_order_date"))
  let analysis_date := last_date + 2
  (prepped,
   { customer_id := colValues df ("master_id")
     recency_cltv_weekly := List.zipWith (fun l f => (l - f) / 7)
       (colValues df ("last_order_date")) (colValues df ("first_order_date"))
     T_weekly := (colValues df ("first_order_date")).map fun f => (analysis_date - f) / 7
     frequency := colValues df ("total_order_num")
     monetary_cltv_avg := List.zipWith pdDiv
       (colValues df ("customer_value_total")) (colValues df ("total_order_num")) })

/-- The script calls create_cltv with the global df aliased to the argument:
by the time the frame columns are read, data_prep has already mutated the one
shared object, so the global value equals data_prep of the argument. -/
def create_cltv_run (dataframe : Table) : Table × CltvFrame :=
  create_cltv (data_prep dataframe) dataframe

/-- The external lifetimes library (BetaGeoFitter, GammaGammaFitter),
abstracted: fitting on the feature columns followed by prediction is an
arbitrary function of those columns. expSales takes the horizon in weeks and
the fit columns; expAvgValue the fit columns of the Gamma-Gamma model; clv
additionally the horizon in months and the discount rate. -/
structure LibModel where
  expSales : ℚ → List ℚ → List ℚ → List ℚ → List ℚ
  expAvgValue : List ℚ → List (Option ℚ) → List ℚ
  clv : List ℚ → List ℚ → List ℚ → List (Option ℚ) → ℚ → ℚ → List ℚ

/-- The frame after modelling added its four score columns (lines 172-185).
exp_sales_month is the column named exp_sales_{month}_month. -/
structure ModelFrame extends CltvFrame where
  exp_sales_3_month : List ℚ
  exp_sales_month : List ℚ
  exp_average_value : List ℚ
  cltv : List ℚ
deriving DecidableEq

/-- modelling of src/cltv.py (lines 152-187). The source default is month=6.
The discount_rate argument of customer_lifetime_value is the literal 0.01
(line 185); freq="W" makes it a weekly rate. -/
def modelling (lib : LibModel) (df : Table) (dataframe : Table) (month : ℕ) :
    Table × ModelFrame :=
  let p := create_cltv df dataframe
  let c := p.2
  (p.1,
   { toCltvFrame := c
     exp_sales_3_month := lib.expSales 12 c.frequency c.recency_cltv_weekly c.T_weekly
     exp_sales_month :=
       lib.expSales ((month : ℚ) * 4) c.frequency c.recency_cltv_weekly c.T_weekly
     exp_average_value := lib.expAvgValue c.frequency c.monetary_cltv_avg
     cltv := lib.clv c.frequency c.recency_cltv_weekly c.T_weekly
       c.monetary_cltv_avg (month : ℚ) 0.01 })

/-- modelling with the weekly discount rate generalised to a parameter; it is
compared with modelling to state that the source fixes the rate at 0.01 and
exposes no way for a caller to change it. -/
def modelling_rate (lib : LibModel) (df : Table) (dataframe : Table) (month : ℕ)
    (discount_rate : ℚ) : Table × ModelFrame :=
  let p := create_cltv df dataframe
  let c := p.2
  (p.1,
   { toCltvFrame := c
     exp_sales_3_month := lib.expSales 12 c.frequency c.recency_cltv_weekly c.T_weekly
     exp_sales_month :=
       lib.expSales ((month : ℚ) * 4) c.frequency c.recency_cltv_weekly c.T_weekly
     exp_average_value := lib.expAvgValue c.frequency c.monetary_cltv_avg
     cltv := lib.clv c.frequency c.recency_cltv_weekly c.T_weekly
       c.monetary_cltv_avg (month : ℚ) discount_rate })

/-- The quantile bin edges pd.qcut computes for q buckets: the i/q quantiles
of the score vector, i = 0..q (numpy linspace of q+1 quantile levels), with
the same linear interpolation as Series.quantile. -/
def qcutEdges (x : List ℚ) (q : ℕ) : List ℚ :=
  (List.range (q + 1)).map fun i : ℕ => quantile x ((i : ℚ) / (q : ℚ))

/-- The internal bin edges (all but the first and last). -/
def internalEdges (edges : List ℚ) : List ℚ :=
  (edges.drop 1).dropLast

/-- Which label a score gets: bins are left-open right-closed with the lowest
value included in the first bin, so the bin index of s is the number of
internal edges strictly below s. -/
def assignBin (edges : List ℚ) (labels : List String) (s : ℚ) : String :=
  labels.getD ((internalEdges edges).countP fun e => decide (e < s)) ("")

/-- Modelled pandas qcut(x, q, labels) with the default duplicates handling:
it raises when q is not a positive bucket count, when the computed bin edges
are not all distinct, and when the label list length differs from the bucket
count q; otherwise every score is assigned its bin label. -/
def qcut (x : List ℚ) (q : ℕ) (labels : List String) : Except String (List String) :=
  if q = 0 then Except.error ("qcut needs a positive number of quantiles") else
  let edges := qcutEdges x q
  if ¬ edges.Nodup then Except.error ("Bin edges must be unique") else
  if labels.length ≠ q then
    Except.error ("Bin labels must be one fewer than the number of bin edges") else
  Except.ok (x.map (assignBin edges labels))

/-- cltv_final of src/cltv.py (lines 190-217). It calls modelling with the
default month=6, segments via pd.qcut, and writes cltv_flo.csv iff csv is
true. The triple returned is (the post-call state of the caller argument,
whether to_csv ran, the qcut outcome paired with the enriched frame). to_csv
is sequenced after qcut, so on the qcut error path no file is written. -/
def cltv_final (lib : LibModel) (df : Table) (dataframe : Table) (segment_count : ℕ)
    (segments : List String) (csv : Bool) :
    Table × Bool × Except String (ModelFrame × List String) :=
  let p := modelling lib df dataframe 6
  match qcut p.2.cltv segment_count segments with
  | Except.error e => (p.1, false, Except.error e)
  | Except.ok seg => (p.1, csv, Except.ok (p.2, seg))

/-- The default of the month parameter in the source signature
modelling(dataframe, month=6) at line 152. -/
def modelling_month_default : Option ℕ := some 6

/-- The source signature cltv_final(dataframe, segment_count, segments,
csv=True) at line 190 declares no default for segment_count. -/
def cltv_final_segment_count_default : Option ℕ := none

/-- The source signature at line 190 declares no default for segments. -/
def cltv_final_segments_default : Option (List String) := none

/-- The source signature at line 190 defaults csv to True. -/
def cltv_final_csv_default : Option Bool := some true

/-- The segment count the single script invocation passes (line 223). -/
def script_segment_count : ℕ := 6

/-- The label list the single script invocation passes (line 223). -/
def script_segments : List String := ["F", "D", "C", "B", "A", "S"]

/-- A concrete two-customer table in the shape of the FLO CSV, used to
instantiate the theorems with hypotheses at concrete inputs. Dates are day
numbers; every numeric column has fewer than ten distinct values, so
grab_col_names classifies none of them as numeric to cap. -/
def exTable : Table :=
  [⟨"master_id", Dtype.obj, [1, 2]⟩,
   ⟨"first_order_date", Dtype.obj, [0, 7]⟩,
   ⟨"last_order_date", Dtype.obj, [10, 14]⟩,
   ⟨"order_num_total_ever_online", Dtype.num, [1, 2]⟩,
   ⟨"order_num_total_ever_offline", Dtype.num, [0, 1]⟩,
   ⟨"customer_value_total_ever_offline", Dtype.num, [0, 5]⟩,
   ⟨"customer_value_total_ever_online", Dtype.num, [10, 20]⟩]

/-- exTable with a later maximum last_order_date (second customer at day 21
instead of 14); used to compare two create_cltv calls. -/
def exTable2 : Table :=
  [⟨"master_id", Dtype.obj, [1, 2]⟩,
   ⟨"first_order_date", Dtype.obj, [0, 7]⟩,
   ⟨"last_order_date", Dtype.obj, [10, 21]⟩,
   ⟨"order_num_total_ever_online", Dtype.num, [1, 2]⟩,
   ⟨"order_num_total_ever_offline", Dtype.num, [0, 1]⟩,
   ⟨"customer_value_total_ever_offline", Dtype.num, [0, 5]⟩,
   ⟨"customer_value_total_ever_online", Dtype.num, [10, 20]⟩]

/-- A one-column table whose numeric column has only two distinct values (61
zeros and one far outlier), hence fewer than cat_th=10: grab_col_names calls
it categorical and data_prep does not cap it, although the outlier lies
below the capping threshold. -/
def lowCardTable : Table :=
  [⟨"x", Dtype.num, List.replicate 61 (0 : ℚ) ++ [-1000]⟩]

/-- A one-column table whose numeric column has eleven distinct values, so
grab_col_names keeps it in num_cols and data_prep caps it; the value -1000
lies below the low threshold and is replaced. -/
def wideTable : Table :=
  [⟨"y", Dtype.num, [-1000, 1, 2, 3, 4, 5, 6, 7, 8, 9] ++ List.replicate 53 (0 : ℚ)⟩]

/-- A trivial concrete instance of the abstracted lifetimes library, for
evaluating the pipeline at concrete inputs. -/
def constLib : LibModel :=
  ⟨fun _ _ _ _ => [], fun _ _ => [], fun _ _ _ _ _ _ => []⟩

/-- Half-to-even rounding never exceeds the value by more than one half. -/
theorem rhe_le (x : ℚ) : (rhe x : ℚ) ≤ x + 1/2 := by
  have h1 : ((⌊x⌋ : ℤ) : ℚ) ≤ x := Int.floor_le x
  have h2 : x < ((⌊x⌋ : ℤ) : ℚ) + 1 := Int.lt_floor_add_one x
  simp only [rhe]
  split_ifs with ha hb hc
  · linarith
  · push_cast
    linarith
  · linarith
  · push_cast
    linarith

/-- Half-to-even rounding never falls below the value by more than one half. -/
theorem rhe_ge (x : ℚ) : x - 1/2 ≤ (rhe x : ℚ) := by
  have h1 : ((⌊x⌋ : ℤ) : ℚ) ≤ x := Int.floor_le x
  have h2 : x < ((⌊x⌋ : ℤ) : ℚ) + 1 := Int.lt_floor_add_one x
  simp only [rhe]
  split_ifs with ha hb hc
  · linarith
  · push_cast
    linarith
  · linarith
  · push_cast
    linarith

/-- When the rounded low threshold overshoots the high threshold, both
thresholds round to the same integer, so re-capping the already replaced
value changes nothing. -/
theorem rhe_between {low up : ℚ} (hle : low ≤ up) (hgt : up < (rhe low : ℚ)) :
    rhe up = rhe low := by
  rcases eq_or_lt_of_le hle with heq | hlt
  · rw [heq]
  · have h1 : (rhe low : ℚ) ≤ low + 1/2 := rhe_le low
    set m := rhe low with hm
    have hfl : ⌊up⌋ = m - 1 := by
      rw [Int.floor_eq_iff]
      constructor
      · push_cast
        linarith
      · push_cast
        linarith
    have hr : 1/2 < up - ((m : ℚ) - 1) := by linarith
    simp only [rhe, hfl]
    split_ifs with ha hb hc
    · exfalso
      push_cast at ha
      linarith
    · omega
    · exfalso
      push_cast at hb
      linarith
    · exfalso
      push_cast at hb
      linarith

/-- On a sorted list, getD with default 0 is monotone in the index (within
bounds). -/
theorem sorted_getD_mono {s : List ℚ} (hs : List.Sorted (fun x y => x ≤ y) s) {i j : ℕ}
    (hij : i ≤ j) (hj : j < s.length) : s.getD i 0 ≤ s.getD j 0 := by
  have hi : i < s.length := lt_of_le_of_lt hij hj
  rw [List.getD_eq_getElem _ _ hi, List.getD_eq_getElem _ _ hj]
  have h := @List.Sorted.rel_get_of_le ℚ (fun x y => x ≤ y) _ s hs ⟨i, hi⟩ ⟨j, hj⟩ hij
  simpa using h

/-- The sorted copy of a list has the same length. -/
theorem sortVals_length (l : List ℚ) : (sortVals l).length = l.length :=
  (List.perm_insertionSort _ l).length_eq

/-- The sorted copy is sorted. -/
theorem sortVals_sorted (l : List ℚ) : List.Sorted (fun x y => x ≤ y) (sortVals l) :=
  List.sorted_insertionSort _ l

/-- Linear-interpolation quantiles are monotone in the quantile level on
[0, 1]. -/
theorem quantile_mono (l : List ℚ) {a b : ℚ} (ha : 0 ≤ a) (hab : a ≤ b) (hb1 : b ≤ 1) :
    quantile l a ≤ quantile l b := by
  simp only [quantile]
  set s := sortVals l with hsdef
  have hsort : List.Sorted (fun x y => x ≤ y) s := sortVals_sorted l
  by_cases h0 : s.length = 0
  · simp [h0]
  · rw [if_neg h0, if_neg h0]
    set n := s.length with hndef
    have hn : 1 ≤ n := Nat.one_le_iff_ne_zero.mpr h0
    set N : ℕ := n - 1 with hNdef
    have hNn : N < n := by omega
    have hNa0 : (0:ℚ) ≤ (N:ℚ) * a := mul_nonneg (Nat.cast_nonneg N) ha
    have hNab : (N:ℚ) * a ≤ (N:ℚ) * b := mul_le_mul_of_nonneg_left hab (Nat.cast_nonneg N)
    have hNbN : (N:ℚ) * b ≤ (N:ℚ) := by
      have hc : (0:ℚ) ≤ (N:ℚ) := Nat.cast_nonneg N
      nlinarith
    have hia0 : 0 ≤ ⌊(N:ℚ) * a⌋ := Int.floor_nonneg.mpr hNa0
    have hib0 : 0 ≤ ⌊(N:ℚ) * b⌋ := Int.floor_nonneg.mpr (le_trans hNa0 hNab)
    set ia := (⌊(N:ℚ) * a⌋).toNat with hiadef
    set ib := (⌊(N:ℚ) * b⌋).toNat with hibdef
    have hiacast : (ia : ℚ) = ((⌊(N:ℚ) * a⌋ : ℤ) : ℚ) := by
      rw [hiadef]
      exact_mod_cast congrArg (fun t : ℤ => (t : ℚ)) (Int.toNat_of_nonneg hia0)
    have hibcast : (ib : ℚ) = ((⌊(N:ℚ) * b⌋ : ℤ) : ℚ) := by
      rw [hibdef]
      exact_mod_cast congrArg (fun t : ℤ => (t : ℚ)) (Int.toNat_of_nonneg hib0)
    have hia1 : (ia : ℚ) ≤ (N:ℚ) * a := by
      rw [hiacast]
      exact Int.floor_le ((N:ℚ) * a)
    have hia2 : (N:ℚ) * a < (ia : ℚ) + 1 := by
      rw [hiacast]
      exact Int.lt_floor_add_one ((N:ℚ) * a)
    have hib1 : (ib : ℚ) ≤ (N:ℚ) * b := by
      rw [hibcast]
      exact Int.floor_le ((N:ℚ) * b)
    have hib2 : (N:ℚ) * b < (ib : ℚ) + 1 := by
      rw [hibcast]
      exact Int.lt_floor_add_one ((N:ℚ) * b)
    have hiaib : ia ≤ ib := Int.toNat_le_toNat (Int.floor_le_floor hNab)
    have hibN : ib ≤ N := by
      have h := Int.floor_le_floor hNbN
      rw [Int.floor_natCast] at h
      have h2 := Int.toNat_le_toNat h
      rwa [Int.toNat_natCast] at h2
    have hibn : ib < n := lt_of_le_of_lt hibN hNn
    have hB1 : s.getD ib 0 ≤ s.getD (ib + 1) (s.getD ib 0) := by
      rcases Nat.lt_or_ge (ib + 1) n with hv | hv
      · rw [List.getD_eq_getElem _ _ hv, List.getD_eq_getElem _ _ hibn]
        have h := sorted_getD_mono hsort (Nat.le_succ ib) hv
        rwa [List.getD_eq_getElem _ _ hibn, List.getD_eq_getElem _ _ hv] at h
      · rw [List.getD_eq_default _ _ hv]
    rcases eq_or_lt_of_le hiaib with hEq | hLt
    · rw [hEq]
      have hGab : (N:ℚ) * a - (ib:ℚ) ≤ (N:ℚ) * b - (ib:ℚ) := by linarith
      have hmul := mul_le_mul_of_nonneg_right hGab
        (sub_nonneg.mpr hB1)
      linarith
    · have hia1n : ia + 1 ≤ ib := Nat.succ_le_of_lt hLt
      have hia1v : ia + 1 < n := lt_of_le_of_lt hia1n hibn
      have hiav : ia < n := lt_trans (Nat.lt_succ_self ia) hia1v
      have hAA1 : s.getD ia 0 ≤ s.getD (ia + 1) 0 :=
        sorted_getD_mono hsort (Nat.le_succ ia) hia1v
      have hstep1 : s.getD ia 0 + ((N:ℚ) * a - (ia:ℚ)) * (s.getD (ia + 1) (s.getD ia 0) - s.getD ia 0)
          ≤ s.getD (ia + 1) 0 := by
        rw [List.getD_eq_getElem s (s.getD ia 0) hia1v, List.getD_eq_getElem s 0 hia1v,
          List.getD_eq_getElem s 0 hiav]
        rw [List.getD_eq_getElem s 0 hia1v, List.getD_eq_getElem s 0 hiav] at hAA1
        have hg1 : (0:ℚ) ≤ 1 - ((N:ℚ) * a - (ia:ℚ)) := by linarith
        have hmul := mul_nonneg hg1 (sub_nonneg.mpr hAA1)
        nlinarith
      have hstep2 : s.getD (ia + 1) 0 ≤ s.getD ib 0 :=
        sorted_getD_mono hsort hia1n hibn
      have hstep3 : s.getD ib 0 ≤
          s.getD ib 0 + ((N:ℚ) * b - (ib:ℚ)) * (s.getD (ib + 1) (s.getD ib 0) - s.getD ib 0) := by
        have hg : (0:ℚ) ≤ (N:ℚ) * b - (ib:ℚ) := by linarith
        have hmul := mul_nonneg hg (sub_nonneg.mpr hB1)
        linarith
      linarith

/-- The low capping threshold never exceeds the high one: the 0.01-quantile
is at most the 0.99-quantile, and the limits move them further apart. -/
theorem outlier_thresholds_le (l : List ℚ) :
    (outlier_thresholds l 0.01 0.99).1 ≤ (outlier_thresholds l 0.01 0.99).2 := by
  have h := quantile_mono l (by norm_num : (0:ℚ) ≤ 0.01)
    (by norm_num : (0.01:ℚ) ≤ 0.99) (by norm_num : (0.99:ℚ) ≤ 1)
  simp only [outlier_thresholds]
  linarith

/-- Elementwise effect of the two sequential masked assignments. -/
theorem cap_elem (low up v : ℚ) (h : low ≤ up) :
    (if up < (if v < low then ((rhe low : ℤ) : ℚ) else v) then ((rhe up : ℤ) : ℚ)
     else (if v < low then ((rhe low : ℤ) : ℚ) else v)) =
    (if v < low then ((rhe low : ℤ) : ℚ) else if up < v then ((rhe up : ℤ) : ℚ) else v) := by
  by_cases h1 : v < low
  · simp only [if_pos h1]
    by_cases h2 : up < ((rhe low : ℤ) : ℚ)
    · rw [if_pos h2, rhe_between h h2]
    · rw [if_neg h2]
  · simp only [if_neg h1]

/-- C1. For every numeric column, outlier capping computes Q1 as the
0.01-quantile and Q3 as the 0.99-quantile, sets low = Q1 - 1.5*(Q3-Q1) and
high = Q3 + 1.5*(Q3-Q1), leaves every value within [low, high] unchanged,
replaces every value strictly below low with round(low, 0), and replaces
every value strictly above high with round(high, 0). (In the corner where
round(low, 0) lands above high, the second mask re-replaces it with
round(high, 0), which is then the same integer, so the stated form holds.) -/
theorem replace_with_thresholds_spec (l : List ℚ) (i : ℕ) (hi : i < l.length) :
    outlier_thresholds l 0.01 0.99 =
      (quantile l 0.01 - 1.5 * (quantile l 0.99 - quantile l 0.01),
       quantile l 0.99 + 1.5 * (quantile l 0.99 - quantile l 0.01)) ∧
    (replace_with_thresholds_vals l).length = l.length ∧
    (replace_with_thresholds_vals l).getD i 0 =
      (if l.getD i 0 < (outlier_thresholds l 0.01 0.99).1
         then ((rhe (outlier_thresholds l 0.01 0.99).1 : ℤ) : ℚ)
       else if (outlier_thresholds l 0.01 0.99).2 < l.getD i 0
         then ((rhe (outlier_thresholds l 0.01 0.99).2 : ℤ) : ℚ)
       else l.getD i 0) := by
  refine ⟨by simp [outlier_thresholds], by simp [replace_with_thresholds_vals], ?_⟩
  have hle := outlier_thresholds_le l
  simp only [replace_with_thresholds_vals]
  have hi1 : i < (l.map fun v =>
      if v < (outlier_thresholds l 0.01 0.99).1
      then ((rhe (outlier_thresholds l 0.01 0.99).1 : ℤ) : ℚ) else v).length := by
    simpa using hi
  have hi2 : i < ((l.map fun v =>
      if v < (outlier_thresholds l 0.01 0.99).1
      then ((rhe (outlier_thresholds l 0.01 0.99).1 : ℤ) : ℚ) else v).map fun v =>
      if (outlier_thresholds l 0.01 0.99).2 < v
      then ((rhe (outlier_thresholds l 0.01 0.99).2 : ℤ) : ℚ) else v).length := by
    simpa using hi
  rw [List.getD_eq_getElem _ _ hi2, List.getElem_map, List.getElem_map,
    List.getD_eq_getElem _ _ hi]
  exact cap_elem (outlier_thresholds l 0.01 0.99).1 (outlier_thresholds l 0.01 0.99).2
    l[i] hle

/-- Witness for C1 at the concrete column [1, 2, 3], index 0. -/
theorem replace_with_thresholds_spec_witness :
    outlier_thresholds [1, 2, 3] 0.01 0.99 =
      (quantile [1, 2, 3] 0.01 - 1.5 * (quantile [1, 2, 3] 0.99 - quantile [1, 2, 3] 0.01),
       quantile [1, 2, 3] 0.99 + 1.5 * (quantile [1, 2, 3] 0.99 - quantile [1, 2, 3] 0.01)) ∧
    (replace_with_thresholds_vals [1, 2, 3]).length = ([1, 2, 3] : List ℚ).length ∧
    (replace_with_thresholds_vals [1, 2, 3]).getD 0 0 =
      (if ([1, 2, 3] : List ℚ).getD 0 0 < (outlier_thresholds [1, 2, 3] 0.01 0.99).1
         then ((rhe (outlier_thresholds [1, 2, 3] 0.01 0.99).1 : ℤ) : ℚ)
       else if (outlier_thresholds [1, 2, 3] 0.01 0.99).2 < ([1, 2, 3] : List ℚ).getD 0 0
         then ((rhe (outlier_thresholds [1, 2, 3] 0.01 0.99).2 : ℤ) : ℚ)
       else ([1, 2, 3] : List ℚ).getD 0 0) :=
  replace_with_thresholds_spec [1, 2, 3] 0 (by decide)

/-- Looking up a column in a table transformed by a label-preserving map
finds the transform of the original column. -/
theorem find?_map_namePreserving (t : Table) (f : Col → Col)
    (hf : ∀ c, (f c).name = c.name) (n : String) :
    (t.map f).find? (fun c => c.name == n) = (t.find? fun c => c.name == n).map f := by
  induction t with
  | nil => simp
  | cons a t ih =>
    by_cases h : a.name = n
    · rw [List.map_cons, List.find?_cons_of_pos _ (by simp [hf, h]),
        List.find?_cons_of_pos _ (by simp [h])]
      simp
    · rw [List.map_cons, List.find?_cons_of_neg _ (by simp [hf, h]),
        List.find?_cons_of_neg _ (by simp [h])]
      exact ih

/-- The empty column is capped to itself. -/
theorem replace_with_thresholds_vals_nil : replace_with_thresholds_vals [] = [] := rfl

/-- replace_with_thresholds updates the named column from its own values. -/
theorem colValues_rwt_self (t : Table) (c : String) :
    colValues (replace_with_thresholds t c) c = replace_with_thresholds_vals (colValues t c) := by
  unfold colValues replace_with_thresholds
  rw [find?_map_namePreserving t _ (fun c0 => by by_cases h : c0.name = c <;> simp [h]) c]
  cases hfind : t.find? (fun x => x.name == c) with
  | none => simp [replace_with_thresholds_vals_nil]
  | some a =>
    have hp : a.name = c := by simpa using List.find?_some hfind
    simp [hp]

/-- replace_with_thresholds leaves every other column unchanged. -/
theorem colValues_rwt_ne (t : Table) (c m : String) (h : m ≠ c) :
    colValues (replace_with_thresholds t c) m = colValues t m := by
  unfold colValues replace_with_thresholds
  rw [find?_map_namePreserving t _ (fun c0 => by by_cases hh : c0.name = c <;> simp [hh]) m]
  cases hfind : t.find? (fun x => x.name == m) with
  | none => simp
  | some a =>
    have hp : a.name = m := by simpa using List.find?_some hfind
    have : ¬ a.name = c := by rw [hp]; exact h
    simp [this]

/-- Column assignment stores exactly the assigned values under the assigned
label. -/
theorem colValues_setCol_self (t : Table) (n : String) (vs : List ℚ) (d : Dtype) :
    colValues (setCol t n vs d) n = vs := by
  unfold setCol
  by_cases h : hasCol t n
  · rw [if_pos h]
    unfold colValues
    rw [find?_map_namePreserving t _ (fun c0 => by by_cases hh : c0.name = n <;> simp [hh]) n]
    cases hfind : t.find? (fun x => x.name == n) with
    | none =>
      exfalso
      unfold hasCol at h
      rw [List.any_eq_true] at h
      obtain ⟨x, hx, hpx⟩ := h
      exact absurd hfind (by simp [List.find?_eq_none]; exact ⟨x, hx, by simpa using hpx⟩)
    | some a =>
      have hp : a.name = n := by simpa using List.find?_some hfind
      simp [hp]
  · rw [if_neg h]
    unfold colValues
    rw [List.find?_append]
    have hnone : t.find? (fun x => x.name == n) = none := by
      rw [List.find?_eq_none]
      intro x hx hpx
      exact h (by unfold hasCol; rw [List.any_eq_true]; exact ⟨x, hx, hpx⟩)
    simp [hnone]

/-- Column assignment leaves every other column unchanged. -/
theorem colValues_setCol_ne (t : Table) (n : String) (vs : List ℚ) (d : Dtype)
    (m : String) (h : m ≠ n) :
    colValues (setCol t n vs d) m = colValues t m := by
  unfold setCol
  by_cases hc : hasCol t n
  · rw [if_pos hc]
    unfold colValues
    rw [find?_map_namePreserving t _ (fun c0 => by by_cases hh : c0.name = n <;> simp [hh]) m]
    cases hfind : t.find? (fun x => x.name == m) with
    | none => simp
    | some a =>
      have hp : a.name = m := by simpa using List.find?_some hfind
      have : ¬ a.name = n := by rw [hp]; exact h
      simp [this]
  · rw [if_neg hc]
    unfold colValues
    rw [List.find?_append]
    cases hfind : t.find? (fun x => x.name == m) with
    | none => simp [Ne.symm h]
    | some a => simp

/-- The datetime coercion changes dtypes only, never values. -/
theorem colValues_datetime (t : Table) (m : String) :
    colValues (to_datetime_date_cols t) m = colValues t m := by
  unfold colValues to_datetime_date_cols
  rw [find?_map_namePreserving t _ (fun c0 => by by_cases hh : nameHasDate c0.name <;> simp [hh]) m]
  cases hfind : t.find? (fun x => x.name == m) with
  | none => simp
  | some a => by_cases hh : nameHasDate a.name <;> simp [hh]

/-- Folding the capper over labels that avoid c leaves column c unchanged. -/
theorem colValues_foldl_rwt_not_mem (l : List String) (t : Table) (c : String) (h : c ∉ l) :
    colValues (l.foldl replace_with_thresholds t) c = colValues t c := by
  induction l generalizing t with
  | nil => rfl
  | cons a l ih =>
    rw [List.foldl_cons]
    have hne : c ≠ a := fun he => h (he ▸ List.mem_cons_self a l)
    rw [ih _ fun hm => h (List.mem_cons_of_mem a hm), colValues_rwt_ne _ _ _ hne]

/-- Folding the capper over a duplicate-free label list caps each listed
column exactly once, from its own original values. -/
theorem colValues_foldl_rwt_mem (l : List String) (t : Table) (c : String)
    (hnd : l.Nodup) (h : c ∈ l) :
    colValues (l.foldl replace_with_thresholds t) c =
      replace_with_thresholds_vals (colValues t c) := by
  induction l generalizing t with
  | nil => cases h
  | cons a l ih =>
    rw [List.foldl_cons]
    rcases List.mem_cons.mp h with he | hm
    · subst he
      have hcl : c ∉ l := (List.nodup_cons.mp hnd).1
      rw [colValues_foldl_rwt_not_mem l _ c hcl, colValues_rwt_self]
    · have hca : c ≠ a := fun he => (List.nodup_cons.mp hnd).1 (he ▸ hm)
      rw [ih _ (List.nodup_cons.mp hnd).2 hm, colValues_rwt_ne _ _ _ hca]

/-- When the table has no repeated column label, neither has the numeric
selection of grab_col_names. -/
theorem num_cols_nodup (t : Table) (hnd : (t.map Col.name).Nodup) :
    (grab_col_names t 10 20).2.2.Nodup := by
  unfold grab_col_names
  have hsub : ((t.filter fun c => c.dtype != Dtype.obj).map Col.name).Sublist
      (t.map Col.name) := (List.filter_sublist t).map Col.name
  exact (hsub.nodup hnd).filter _

/-- Inside data_prep, every column grab_col_names selects as numeric (and
that the later column additions do not overwrite) ends up capped in place
from its own original values. -/
theorem data_prep_capped_col (t : Table) (c : String)
    (hnd : (t.map Col.name).Nodup)
    (hc : c ∈ (grab_col_names t 10 20).2.2)
    (h1 : c ≠ "total_order_num") (h2 : c ≠ "customer_value_total") :
    colValues (data_prep t) c = replace_with_thresholds_vals (colValues t c) := by
  simp only [data_prep]
  rw [colValues_datetime, colValues_setCol_ne _ _ _ _ _ h2, colValues_setCol_ne _ _ _ _ _ h1,
    colValues_foldl_rwt_mem _ _ _ (num_cols_nodup t hnd) hc]

/-- After data_prep, the total_order_num column is the elementwise sum of
the (capped) online and offline order-count columns. -/
theorem data_prep_total (t : Table) :
    colValues (data_prep t) ("total_order_num") =
      List.zipWith (fun a b => a + b)
        (colValues (data_prep t) ("order_num_total_ever_online"))
        (colValues (data_prep t) ("order_num_total_ever_offline")) := by
  simp only [data_prep]
  rw [colValues_datetime, colValues_setCol_ne _ _ _ _ _ (by decide), colValues_setCol_self,
    colValues_datetime, colValues_datetime,
    colValues_setCol_ne _ _ _ _ _ (by decide), colValues_setCol_ne _ _ _ _ _ (by decide),
    colValues_setCol_ne _ _ _ _ _ (by decide), colValues_setCol_ne _ _ _ _ _ (by decide)]

/-- After data_prep, the customer_value_total column is the elementwise sum
of the (capped) offline and online monetary columns. -/
theorem data_prep_value (t : Table) :
    colValues (data_prep t) ("customer_value_total") =
      List.zipWith (fun a b => a + b)
        (colValues (data_prep t) ("customer_value_total_ever_offline"))
        (colValues (data_prep t) ("customer_value_total_ever_online")) := by
  simp only [data_prep]
  rw [colValues_datetime, colValues_setCol_self,
    colValues_datetime, colValues_datetime,
    colValues_setCol_ne _ _ _ _ _ (by decide), colValues_setCol_ne _ _ _ _ _ (by decide),
    colValues_setCol_ne _ _ _ _ _ (by decide), colValues_setCol_ne _ _ _ _ _ (by decide),
    colValues_setCol_ne _ _ _ _ _ (by decide), colValues_setCol_ne _ _ _ _ _ (by decide)]

/-- Label lookup is invariant under label-preserving column maps. -/
theorem hasCol_map_namePreserving (t : Table) (f : Col → Col)
    (hf : ∀ c, (f c).name = c.name) (n : String) :
    hasCol (t.map f) n = hasCol t n := by
  unfold hasCol
  rw [List.any_map]
  congr 1
  funext c
  simp [Function.comp, hf]

/-- Assigning a column makes its label present. -/
theorem hasCol_setCol_self (t : Table) (n : String) (vs : List ℚ) (d : Dtype) :
    hasCol (setCol t n vs d) n = true := by
  unfold setCol
  by_cases h : hasCol t n
  · rw [if_pos h,
      hasCol_map_namePreserving t _ (fun c0 => by by_cases hh : c0.name = n <;> simp [hh]) n]
    exact h
  · rw [if_neg h]
    unfold hasCol
    rw [List.any_append]
    simp

/-- Assigning a column never removes another label. -/
theorem hasCol_setCol_mono (t : Table) (n : String) (vs : List ℚ) (d : Dtype)
    (m : String) (h : hasCol t m = true) : hasCol (setCol t n vs d) m = true := by
  unfold setCol
  by_cases hc : hasCol t n
  · rw [if_pos hc,
      hasCol_map_namePreserving t _ (fun c0 => by by_cases hh : c0.name = n <;> simp [hh]) m]
    exact h
  · rw [if_neg hc]
    unfold hasCol at h ⊢
    rw [List.any_append, h]
    simp

/-- The datetime coercion keeps every label. -/
theorem hasCol_datetime (t : Table) (m : String) :
    hasCol (to_datetime_date_cols t) m = hasCol t m :=
  hasCol_map_namePreserving t _ (fun c0 => by by_cases hh : nameHasDate c0.name <;> simp [hh]) m

/-- Every date-named column of the datetime-coerced table has dtype
datetime. -/
theorem dtype_datetime_mem (t : Table) (c : Col) (hc : c ∈ to_datetime_date_cols t)
    (hd : nameHasDate c.name = true) : c.dtype = Dtype.datetime := by
  unfold to_datetime_date_cols at hc
  rcases List.mem_map.mp hc with ⟨c0, hc0, heq⟩
  by_cases h : nameHasDate c0.name
  · rw [if_pos h] at heq
    rw [← heq]
  · rw [if_neg h] at heq
    rw [← heq] at hd
    exact absurd hd (by simpa using h)

/-- The seed of a max fold never exceeds the fold. -/
theorem foldl_max_le_init (t : List ℚ) (a : ℚ) : a ≤ t.foldl max a := by
  induction t generalizing a with
  | nil => exact le_refl a
  | cons b t ih =>
    rw [List.foldl_cons]
    exact le_trans (le_max_left a b) (ih (max a b))

/-- A max fold bounds the seed and every listed entry from above. -/
theorem le_foldl_max (t : List ℚ) (a x : ℚ) (h : x = a ∨ x ∈ t) : x ≤ t.foldl max a := by
  induction t generalizing a with
  | nil =>
    rcases h with rfl | h
    · exact le_refl x
    · cases h
  | cons b t ih =>
    rw [List.foldl_cons]
    rcases h with rfl | h
    · exact le_trans (le_max_left x b) (foldl_max_le_init t (max x b))
    · rcases List.mem_cons.mp h with rfl | hm
      · exact le_trans (le_max_right a x) (foldl_max_le_init t (max a x))
      · exact ih (max a b) (Or.inr hm)

/-- Every entry of a series is at most its max. -/
theorem le_seriesMax {l : List ℚ} {x : ℚ} (h : x ∈ l) : x ≤ seriesMax l := by
  cases l with
  | nil => cases h
  | cons a t =>
    rcases List.mem_cons.mp h with rfl | hm
    · exact le_foldl_max t x x (Or.inl rfl)
    · exact le_foldl_max t a x (Or.inr hm)

/-- C2. For every prepared table, the feature builder sets analysis_date to
exactly two days after the maximum last_order_date across all customers (a
single constant per run, visible as the same constant inside the map), and
derives recency_cltv_weekly = (last_order_date - first_order_date) days / 7,
T_weekly = (analysis_date - first_order_date) days / 7, frequency =
total_order_num = online + offline order counts, and monetary_cltv_avg =
customer_value_total / frequency with customer_value_total = offline +
online monetary totals. -/
theorem create_cltv_features_spec (t : Table) :
    (create_cltv_run t).2.customer_id = colValues (data_prep t) ("master_id") ∧
    (create_cltv_run t).2.recency_cltv_weekly =
      List.zipWith (fun last first => (last - first) / 7)
        (colValues (data_prep t) ("last_order_date"))
        (colValues (data_prep t) ("first_order_date")) ∧
    (create_cltv_run t).2.T_weekly =
      (colValues (data_prep t) ("first_order_date")).map
        (fun first =>
          ((seriesMax (colValues (data_prep t) ("last_order_date")) + 2) - first) / 7) ∧
    (create_cltv_run t).2.frequency = colValues (data_prep t) ("total_order_num") ∧
    colValues (data_prep t) ("total_order_num") =
      List.zipWith (fun a b => a + b)
        (colValues (data_prep t) ("order_num_total_ever_online"))
        (colValues (data_prep t) ("order_num_total_ever_offline")) ∧
    (create_cltv_run t).2.monetary_cltv_avg =
      List.zipWith pdDiv (colValues (data_prep t) ("customer_value_total"))
        (create_cltv_run t).2.frequency ∧
    colValues (data_prep t) ("customer_value_total") =
      List.zipWith (fun a b => a + b)
        (colValues (data_prep t) ("customer_value_total_ever_offline"))
        (colValues (data_prep t) ("customer_value_total_ever_online")) :=
  ⟨rfl, rfl, rfl, rfl, data_prep_total t, rfl, data_prep_value t⟩

/-- C4. For every customer row of the derived feature table, T_weekly is at
least recency_cltv_weekly: the pipeline fixes analysis_date two days past
the global maximum last_order_date, which bounds every last_order_date from
above. -/
theorem T_weekly_ge_recency (t : Table) (i : ℕ)
    (hi : i < (create_cltv_run t).2.recency_cltv_weekly.length)
    (hi2 : i < (create_cltv_run t).2.T_weekly.length) :
    (create_cltv_run t).2.recency_cltv_weekly.getD i 0 ≤
      (create_cltv_run t).2.T_weekly.getD i 0 := by
  have hrec : (create_cltv_run t).2.recency_cltv_weekly =
      List.zipWith (fun last first => (last - first) / 7)
        (colValues (data_prep t) ("last_order_date"))
        (colValues (data_prep t) ("first_order_date")) := rfl
  have hT : (create_cltv_run t).2.T_weekly =
      (colValues (data_prep t) ("first_order_date")).map
        (fun first =>
          ((seriesMax (colValues (data_prep t) ("last_order_date")) + 2) - first) / 7) := rfl
  rw [hrec] at hi ⊢
  rw [hT] at hi2 ⊢
  set L := colValues (data_prep t) ("last_order_date") with hL
  set F := colValues (data_prep t) ("first_order_date") with hF
  have hiL : i < L.length := by
    rw [List.length_zipWith] at hi
    exact lt_of_lt_of_le hi (min_le_left _ _)
  have hiF : i < F.length := by
    rw [List.length_zipWith] at hi
    exact lt_of_lt_of_le hi (min_le_right _ _)
  rw [List.getD_eq_getElem _ _ hi, List.getD_eq_getElem _ _ hi2, List.getElem_zipWith,
    List.getElem_map]
  have hmem : L[i] ≤ seriesMax L := le_seriesMax (List.getElem_mem hiL)
  have h7 : (0:ℚ) < 7 := by norm_num
  exact (div_le_div_iff_of_pos_right h7).mpr (by linarith)

/-- Witness for C4 at the concrete two-customer table, row 0. -/
theorem T_weekly_ge_recency_witness :
    (create_cltv_run exTable).2.recency_cltv_weekly.getD 0 0 ≤
      (create_cltv_run exTable).2.T_weekly.getD 0 0 :=
  T_weekly_ge_recency exTable 0 (by with_unfolding_all decide) (by with_unfolding_all decide)

/-- Counterexample to C5 as stated: lowCardTable has a single column of
numeric dtype holding an extreme value (below the low capping threshold,
as the third conjunct shows), yet data_prep leaves the column untouched,
because its two distinct values are fewer than cat_th = 10 and
grab_col_names therefore does not classify it as numeric. -/
theorem data_prep_skips_low_cardinality_numeric :
    lowCardTable.map Col.dtype = [Dtype.num] ∧
    colValues (data_prep lowCardTable) ("x") = colValues lowCardTable ("x") ∧
    replace_with_thresholds_vals (colValues lowCardTable ("x")) ≠
      colValues lowCardTable ("x") := by
  set_option maxRecDepth 40000 in
  with_unfolding_all decide

/-- C5 (amended). The capping step of data_prep is applied independently to
every column that grab_col_names selects as numeric, that is, every column
of numeric dtype with at least cat_th = 10 distinct values (and whose label
the later column additions do not overwrite): such a column ends up capped
in place as a function of its own values alone, with no cross-column
interaction. Numeric columns with fewer distinct values are exempt. -/
theorem data_prep_caps_selected_numeric_cols (t : Table) (c : String)
    (hnd : (t.map Col.name).Nodup)
    (hc : c ∈ (grab_col_names t 10 20).2.2)
    (h1 : c ≠ "total_order_num") (h2 : c ≠ "customer_value_total") :
    colValues (data_prep t) c = replace_with_thresholds_vals (colValues t c) :=
  data_prep_capped_col t c hnd hc h1 h2

/-- Witness for C5 (amended) at a concrete one-column table whose numeric
column has eleven distinct values and is capped. -/
theorem data_prep_caps_selected_numeric_cols_witness :
    colValues (data_prep wideTable) ("y") =
      replace_with_thresholds_vals (colValues wideTable ("y")) :=
  data_prep_caps_selected_numeric_cols wideTable ("y") (by decide)
    (by with_unfolding_all decide) (by decide) (by decide)

/-- C7. The division monetary_cltv_avg = customer_value_total / frequency
in create_cltv is unguarded: whenever a customer frequency is at least 1
the quotient is the finite value customer_value_total / frequency, and a
customer with zero total orders yields a non-finite (undefined) monetary
value. -/
theorem monetary_division_spec (df : Table) (t : Table) (i : ℕ)
    (hi : i < (create_cltv df t).2.monetary_cltv_avg.length) :
    (1 ≤ (create_cltv df t).2.frequency.getD i 0 →
      (create_cltv df t).2.monetary_cltv_avg.getD i none =
        some ((colValues df ("customer_value_total")).getD i 0 /
          (create_cltv df t).2.frequency.getD i 0)) ∧
    ((create_cltv df t).2.frequency.getD i 0 = 0 →
      (create_cltv df t).2.monetary_cltv_avg.getD i none = none) := by
  have hmon : (create_cltv df t).2.monetary_cltv_avg =
      List.zipWith pdDiv (colValues df ("customer_value_total"))
        (colValues df ("total_order_num")) := rfl
  have hfreq : (create_cltv df t).2.frequency = colValues df ("total_order_num") := rfl
  rw [hmon] at hi ⊢
  rw [hfreq]
  set V := colValues df ("customer_value_total") with hV
  set Fr := colValues df ("total_order_num") with hFr
  have hiV : i < V.length := by
    rw [List.length_zipWith] at hi
    exact lt_of_lt_of_le hi (min_le_left _ _)
  have hiF : i < Fr.length := by
    rw [List.length_zipWith] at hi
    exact lt_of_lt_of_le hi (min_le_right _ _)
  rw [List.getD_eq_getElem _ _ hi, List.getElem_zipWith, List.getD_eq_getElem _ _ hiV,
    List.getD_eq_getElem _ _ hiF]
  constructor
  · intro h
    have hne : Fr[i] ≠ 0 := by
      intro h0
      rw [h0] at h
      norm_num at h
    unfold pdDiv
    rw [if_neg hne]
  · intro h
    unfold pdDiv
    rw [if_pos h]

/-- Witness for C7 at the concrete two-customer table, row 0 (frequency 1,
customer_value_total 10). -/
theorem monetary_division_spec_witness :
    (1 ≤ (create_cltv (data_prep exTable) exTable).2.frequency.getD 0 0 →
      (create_cltv (data_prep exTable) exTable).2.monetary_cltv_avg.getD 0 none =
        some ((colValues (data_prep exTable) ("customer_value_total")).getD 0 0 /
          (create_cltv (data_prep exTable) exTable).2.frequency.getD 0 0)) ∧
    ((create_cltv (data_prep exTable) exTable).2.frequency.getD 0 0 = 0 →
      (create_cltv (data_prep exTable) exTable).2.monetary_cltv_avg.getD 0 none = none) :=
  monetary_division_spec (data_prep exTable) exTable 0 (by with_unfolding_all decide)

/-- Counterexample to C8 as stated: two create_cltv calls with the same
global df but different dataframe arguments return different feature
frames, because analysis_date (hence T_weekly) is computed from the
parameter, not from the global df. -/
theorem create_cltv_depends_on_argument :
    exTable ≠ exTable2 ∧
    (create_cltv (data_prep exTable) exTable).2 ≠
      (create_cltv (data_prep exTable) exTable2).2 := by
  with_unfolding_all decide

/-- C8 (amended). create_cltv reads customer_id, recency_cltv_weekly,
frequency and monetary_cltv_avg entirely from the outer-scope global df;
only analysis_date (hence T_weekly) comes from its dataframe parameter. Two
calls with the same global df therefore agree on every returned column
except possibly T_weekly, and agree on the whole frame whenever their
parameters yield the same maximum last_order_date. -/
theorem create_cltv_global_df_dependence (df t1 t2 : Table) :
    (create_cltv df t1).2.customer_id = (create_cltv df t2).2.customer_id ∧
    (create_cltv df t1).2.recency_cltv_weekly = (create_cltv df t2).2.recency_cltv_weekly ∧
    (create_cltv df t1).2.frequency = (create_cltv df t2).2.frequency ∧
    (create_cltv df t1).2.monetary_cltv_avg = (create_cltv df t2).2.monetary_cltv_avg ∧
    (seriesMax (colValues (data_prep t1) ("last_order_date")) =
        seriesMax (colValues (data_prep t2) ("last_order_date")) →
      (create_cltv df t1).2 = (create_cltv df t2).2) := by
  refine ⟨rfl, rfl, rfl, rfl, fun h => ?_⟩
  unfold create_cltv
  dsimp only
  rw [h]

/-- A label list whose length differs from the bucket count always makes
qcut raise (possibly with an earlier error when q is 0 or the edges
collide, as pandas also raises first on those). -/
theorem qcut_error_of_label_mismatch (x : List ℚ) (q : ℕ) (labels : List String)
    (h : labels.length ≠ q) : ∃ e, qcut x q labels = Except.error e := by
  simp only [qcut]
  split_ifs with h1 h2
  · exact ⟨_, rfl⟩
  · exact ⟨_, rfl⟩
  · exact ⟨_, rfl⟩

/-- C3. For every input table and every label list whose length differs from
segment_count, cltv_final fails: the quantile cut yields an error, and since
to_csv is sequenced strictly after the cut, the written flag is false — no
output file is created or overwritten on that path. -/
theorem cltv_final_label_mismatch_fails (lib : LibModel) (df : Table) (t : Table)
    (segment_count : ℕ) (segments : List String) (csv : Bool)
    (h : segments.length ≠ segment_count) :
    (cltv_final lib df t segment_count segments csv).2.1 = false ∧
    ∃ e, (cltv_final lib df t segment_count segments csv).2.2 = Except.error e := by
  obtain ⟨e, he⟩ :=
    qcut_error_of_label_mismatch (modelling lib df t 6).2.cltv segment_count segments h
  simp only [cltv_final]
  rw [he]
  exact ⟨rfl, e, rfl⟩

/-- Witness for C3: two buckets but one label, on the concrete table. -/
theorem cltv_final_label_mismatch_fails_witness :
    (cltv_final constLib (data_prep exTable) exTable 2 ["F"] true).2.1 = false ∧
    ∃ e, (cltv_final constLib (data_prep exTable) exTable 2 ["F"] true).2.2 =
      Except.error e :=
  cltv_final_label_mismatch_fails constLib (data_prep exTable) exTable 2 ["F"] true
    (by decide)

/-- Sorting depends only on the multiset of scores. -/
theorem sortVals_eq_of_perm {x y : List ℚ} (h : x.Perm y) : sortVals x = sortVals y :=
  List.eq_of_perm_of_sorted
    ((List.perm_insertionSort _ x).trans (h.trans (List.perm_insertionSort _ y).symm))
    (sortVals_sorted x) (sortVals_sorted y)

/-- Quantiles depend only on the multiset of scores. -/
theorem quantile_eq_of_perm {x y : List ℚ} (h : x.Perm y) (q : ℚ) :
    quantile x q = quantile y q := by
  unfold quantile
  rw [sortVals_eq_of_perm h]

/-- The qcut bin edges depend only on the multiset of scores. -/
theorem qcutEdges_eq_of_perm {x y : List ℚ} (h : x.Perm y) (q : ℕ) :
    qcutEdges x q = qcutEdges y q := by
  unfold qcutEdges
  exact congrArg (fun f => List.map f (List.range (q + 1)))
    (funext fun i => quantile_eq_of_perm h _)

/-- C6. Quantile segmentation is invariant under re-ordering of the input:
a permuted score vector yields the same bucket boundaries, the same error
behaviour, and each customer (each position of the permuted vector) gets the
label assigned to its own score by the common edge/label function. -/
theorem qcut_perm_invariant (x y : List ℚ) (q : ℕ) (labels : List String)
    (h : x.Perm y) :
    qcutEdges x q = qcutEdges y q ∧
    qcut y q labels =
      Except.map (fun _ => y.map (assignBin (qcutEdges x q) labels)) (qcut x q labels) := by
  have hE : qcutEdges x q = qcutEdges y q := qcutEdges_eq_of_perm h q
  refine ⟨hE, ?_⟩
  simp only [qcut]
  rw [← hE]
  split_ifs with h1 h2 h3
  · rfl
  · rfl
  · rfl
  · rfl

/-- Witness for C6 at a concrete three-score vector and a rotation of it. -/
theorem qcut_perm_invariant_witness :
    qcutEdges [1, 2, 3] 3 = qcutEdges [3, 1, 2] 3 ∧
    qcut [3, 1, 2] 3 ["F", "D", "C"] =
      Except.map
        (fun _ => ([3, 1, 2] : List ℚ).map (assignBin (qcutEdges [1, 2, 3] 3) ["F", "D", "C"]))
        (qcut [1, 2, 3] 3 ["F", "D", "C"]) :=
  qcut_perm_invariant [1, 2, 3] [3, 1, 2] 3 ["F", "D", "C"] (by decide)

/-- The 0-quantile of a nonempty column is the head of its sorted values. -/
theorem quantile_zero (x : List ℚ) (hx : (sortVals x).length ≠ 0) :
    quantile x 0 = (sortVals x).getD 0 0 := by
  simp only [quantile]
  rw [if_neg hx]
  simp

/-- The head of the sorted values equals any minimal element. -/
theorem sorted_head_eq_min (x : List ℚ) (s : ℚ) (hs : s ∈ x) (hmin : ∀ y ∈ x, s ≤ y) :
    (sortVals x).getD 0 0 = s := by
  have hperm : (sortVals x).Perm x := List.perm_insertionSort _ x
  have hs2 : s ∈ sortVals x := hperm.mem_iff.mpr hs
  obtain ⟨k, hk, hke⟩ := List.getElem_of_mem hs2
  have hlen : 0 < (sortVals x).length := Nat.pos_of_ne_zero fun h0 => by
    rw [h0] at hk
    exact absurd hk (Nat.not_lt_zero k)
  have h1 : (sortVals x).getD 0 0 ≤ (sortVals x).getD k 0 :=
    sorted_getD_mono (sortVals_sorted x) (Nat.zero_le k) hk
  rw [List.getD_eq_getElem _ _ hk, hke] at h1
  have h2 : s ≤ (sortVals x).getD 0 0 := by
    rw [List.getD_eq_getElem _ _ hlen]
    exact hmin _ (hperm.subset (List.getElem_mem hlen))
  exact le_antisymm h1 h2

/-- When the qcut edges are all distinct, every internal edge lies strictly
above the 0-quantile (the minimum score). -/
theorem internal_edge_gt_min (x : List ℚ) (q : ℕ) (hq : q ≠ 0)
    (hnd : (qcutEdges x q).Nodup) (e : ℚ) (he : e ∈ internalEdges (qcutEdges x q)) :
    quantile x 0 < e := by
  obtain ⟨j, hj, hje⟩ := List.getElem_of_mem he
  have hjq : j < q - 1 := by
    have hlen : (internalEdges (qcutEdges x q)).length = q - 1 := by
      simp [internalEdges, qcutEdges]
    rwa [hlen] at hj
  have hEq1 : (qcutEdges x q).length = q + 1 := by simp [qcutEdges]
  have hj1 : 1 + j < (qcutEdges x q).length := by
    rw [hEq1]
    omega
  have h0l : 0 < (qcutEdges x q).length := by
    rw [hEq1]
    omega
  have hje2 : e = (qcutEdges x q)[1 + j] := by
    rw [← hje]
    simp only [internalEdges]
    rw [List.getElem_dropLast, List.getElem_drop]
  have hE0 : (qcutEdges x q)[0] = quantile x 0 := by
    simp only [qcutEdges]
    rw [List.getElem_map, List.getElem_range]
    norm_num
  have hEj : (qcutEdges x q)[1 + j] = quantile x (((1 + j : ℕ) : ℚ) / (q : ℚ)) := by
    simp only [qcutEdges]
    rw [List.getElem_map, List.getElem_range]
  have hqpos : (0:ℚ) < (q : ℚ) := by exact_mod_cast Nat.pos_of_ne_zero hq
  have hle : quantile x 0 ≤ quantile x (((1 + j : ℕ) : ℚ) / (q : ℚ)) := by
    refine quantile_mono x (le_refl (0:ℚ)) (by positivity) ?_
    rw [div_le_one hqpos]
    exact_mod_cast (by omega : 1 + j ≤ q)
  have hne : (qcutEdges x q)[0] ≠ (qcutEdges x q)[1 + j] := by
    intro heq
    have h01 := (List.Nodup.getElem_inj_iff hnd).mp heq
    omega
  rw [hje2]
  calc quantile x 0 = (qcutEdges x q)[0] := hE0.symm
    _ < (qcutEdges x q)[1 + j] := lt_of_le_of_ne (by rw [hE0, hEj]; exact hle) hne

/-- In a successful qcut, any customer holding a minimal score receives the
first label of the list (lowest value, first label). -/
theorem qcut_lowest_gets_first_label (x : List ℚ) (q : ℕ) (labels r : List String)
    (hok : qcut x q labels = Except.ok r) (i : ℕ) (hi : i < x.length)
    (hmin : ∀ y ∈ x, x.getD i 0 ≤ y) :
    r.getD i ("") = labels.getD 0 ("") := by
  simp only [qcut] at hok
  split_ifs at hok with h1 h2 h3
  · cases hok
    have him : i < (x.map (assignBin (qcutEdges x q) labels)).length := by simpa using hi
    rw [List.getD_eq_getElem _ _ him, List.getElem_map]
    unfold assignBin
    have hcount :
        (internalEdges (qcutEdges x q)).countP (fun e => decide (e < x[i])) = 0 := by
      rw [List.countP_eq_zero]
      intro e he
      simp only [decide_eq_true_eq, not_lt]
      have hgt := internal_edge_gt_min x q h1 h2 e he
      have hxi : quantile x 0 = x[i] := by
        rw [quantile_zero x (by rw [sortVals_length]; omega)]
        have hh := sorted_head_eq_min x (x.getD i 0)
          (by rw [List.getD_eq_getElem _ _ hi]; exact List.getElem_mem hi) hmin
        rw [List.getD_eq_getElem _ _ hi] at hh
        exact hh
      rw [← hxi]
      exact le_of_lt hgt
    rw [hcount]

/-- Counterexample to C9 as stated: the source signature of cltv_final
declares no default for segment_count (nor for segments), so neither
defaults to the values the claim names; they are required arguments that
the script call supplies explicitly. -/
theorem cltv_final_no_segment_count_default :
    cltv_final_segment_count_default ≠ some script_segment_count ∧
    cltv_final_segments_default ≠ some script_segments :=
  ⟨by decide, by decide⟩

/-- C9 (amended). The prediction horizon parameter defaults to 6 months and
the weekly discount rate in the lifetime-value computation is the fixed
constant 0.01, not caller-configurable; segment_count and segments are
required parameters with no declared defaults, and the single script
invocation passes 6 and the ordered labels F, D, C, B, A, S, which qcut
assigns lowest value to first label. -/
theorem params_defaults_spec :
    modelling_month_default = some 6 ∧
    cltv_final_segment_count_default = none ∧
    cltv_final_segments_default = none ∧
    cltv_final_csv_default = some true ∧
    script_segment_count = 6 ∧
    script_segments = ["F", "D", "C", "B", "A", "S"] ∧
    script_segments.length = script_segment_count ∧
    (∀ (lib : LibModel) (df t : Table) (month : ℕ),
      modelling lib df t month = modelling_rate lib df t month 0.01) ∧
    (∀ (x : List ℚ) (q : ℕ) (labels r : List String) (i : ℕ),
      qcut x q labels = Except.ok r → i < x.length → (∀ y ∈ x, x.getD i 0 ≤ y) →
      r.getD i ("") = labels.getD 0 ("")) :=
  ⟨rfl, rfl, rfl, rfl, rfl, rfl, rfl, fun _ _ _ _ => rfl,
   fun x q labels r i hok hi hmin => qcut_lowest_gets_first_label x q labels r hok i hi hmin⟩

/-- C10. cltv_final returns a freshly built frame (on success, the returned
table is the modelling frame constructed from the global df, not the
argument object), yet it mutates the caller argument in place: after every
call the argument state is data_prep of its input, so it retains the
outlier capping of every selected numeric column, the two added columns
total_order_num and customer_value_total, and the datetime dtype on every
column whose label contains the substring date. -/
theorem cltv_final_mutates_argument (lib : LibModel) (df : Table) (t : Table)
    (segment_count : ℕ) (segments : List String) (csv : Bool)
    (hnd : (t.map Col.name).Nodup) :
    (cltv_final lib df t segment_count segments csv).1 = data_prep t ∧
    (∀ c, c ∈ (grab_col_names t 10 20).2.2 → c ≠ "total_order_num" →
      c ≠ "customer_value_total" →
      colValues (data_prep t) c = replace_with_thresholds_vals (colValues t c)) ∧
    hasCol (data_prep t) ("total_order_num") = true ∧
    hasCol (data_prep t) ("customer_value_total") = true ∧
    (∀ c, c ∈ data_prep t → nameHasDate c.name = true → c.dtype = Dtype.datetime) ∧
    (∀ (m : ModelFrame) (seg : List String),
      (cltv_final lib df t segment_count segments csv).2.2 = Except.ok (m, seg) →
      m.toCltvFrame = (create_cltv df t).2) := by
  refine ⟨?_, fun c hc hc1 hc2 => data_prep_capped_col t c hnd hc hc1 hc2, ?_, ?_, ?_, ?_⟩
  · simp only [cltv_final]
    cases hq : qcut (modelling lib df t 6).2.cltv segment_count segments with
    | error e => rfl
    | ok seg0 => rfl
  · simp only [data_prep]
    rw [hasCol_datetime]
    exact hasCol_setCol_mono _ _ _ _ _ (hasCol_setCol_self _ _ _ _)
  · simp only [data_prep]
    rw [hasCol_datetime]
    exact hasCol_setCol_self _ _ _ _
  · exact fun c hc hd => dtype_datetime_mem _ c hc hd
  · intro m seg hok
    simp only [cltv_final] at hok
    cases hq : qcut (modelling lib df t 6).2.cltv segment_count segments with
    | error e =>
      rw [hq] at hok
      exact absurd hok (by simp)
    | ok s0 =>
      rw [hq] at hok
      simp only [Except.ok.injEq, Prod.mk.injEq] at hok
      rw [← hok.1]
      rfl

/-- Witness for C10 on the concrete two-customer table with the script
parameters. -/
theorem cltv_final_mutates_argument_witness :
    (cltv_final constLib (data_prep exTable) exTable script_segment_count script_segments
      true).1 = data_prep exTable ∧
    (∀ c, c ∈ (grab_col_names exTable 10 20).2.2 → c ≠ "total_order_num" →
      c ≠ "customer_value_total" →
      colValues (data_prep exTable) c = replace_with_thresholds_vals (colValues exTable c)) ∧
    hasCol (data_prep exTable) ("total_order_num") = true ∧
    hasCol (data_prep exTable) ("customer_value_total") = true ∧
    (∀ c, c ∈ data_prep exTable → nameHasDate c.name = true → c.dtype = Dtype.datetime) ∧
    (∀ (m : ModelFrame) (seg : List String),
      (cltv_final constLib (data_prep exTable) exTable script_segment_count script_segments
        true).2.2 = Except.ok (m, seg) →
      m.toCltvFrame = (create_cltv (data_prep exTable) exTable).2) :=
  cltv_final_mutates_argument constLib (data_prep exTable) exTable script_segment_count
    script_segments true (by decide)

end CltvFlo
